import Mathlib

/-! goldsert: golden-file marshaling assertions.

A shallow embedding of `assert.go` of `jimeh/go-goldsert`: the line-break
normalizer and the three `*MarshalingP` helpers, followed by theorems about
them.  Collaborators that live outside the package (the codecs, `reflect`,
testify and the golden-file store) are parameters of the model.
-/

namespace Goldsert

/-! ## Bytes and `bytes.ReplaceAll` -/

/-- A Go `byte`. -/
abbrev Byte := Fin 256

/-- A Go `[]byte`. -/
abbrev Bytes := List Byte

/-- Worker of `ReplaceAll` for the non-empty pattern `o :: os`: a left-to-right
scan replacing each non-overlapping occurrence of the pattern by `new`.  The
counter holds how many bytes of a matched occurrence are still to be
skipped. -/
def ReplaceAll.go (o : Byte) (os new : Bytes) : Nat → Bytes → Bytes
  | _, [] => []
  | k + 1, _ :: rest => ReplaceAll.go o os new k rest
  | 0, b :: rest =>
    if b = o ∧ os.isPrefixOf rest = true then
      new ++ ReplaceAll.go o os new os.length rest
    else
      b :: ReplaceAll.go o os new 0 rest

/-- Go's `bytes.ReplaceAll(s, old, new)` for a non-empty `old = o :: os`: a
copy of `s` with all non-overlapping instances of `old` replaced by `new`. -/
def ReplaceAll (s : Bytes) (o : Byte) (os new : Bytes) : Bytes :=
  ReplaceAll.go o os new 0 s

/-- The function `normalizeLineBreaks` of `assert.go`: CRLF to LF, then CR to
LF. -/
def normalizeLineBreaks (data : Bytes) : Bytes :=
  -- Replace CRLF (\r\n, windows) with LF (\n, unix)
  let result := ReplaceAll data 13 [10] [10]
  -- Replace CR (\r, mac) with LF (\n, unix)
  let result := ReplaceAll result 13 [] [10]
  result

/-- The single left-to-right scan of the specification: one LF for each CRLF
pair and for each CR not followed by LF, every other byte copied. -/
def scanLineBreaks : Bytes → Bytes
  | [] => []
  | [b] => if b = 13 then [10] else [b]
  | b :: c :: rest =>
    if b = 13 ∧ c = 10 then 10 :: scanLineBreaks rest
    else (if b = 13 then 10 else b) :: scanLineBreaks (c :: rest)

/-- The reference of the Windows scenario of the specification: the text with
every LF written as the pair CR LF. -/
def toCRLF : Bytes → Bytes
  | [] => []
  | b :: rest => if b = 10 then 13 :: 10 :: toCRLF rest else b :: toCRLF rest


/-! ## Collaborators outside the package -/

/-- The three serialization formats, one per family of helpers. -/
inductive Format
  | json
  | yaml
  | xml
  deriving DecidableEq, Repr

/-- The kinds of `reflect.Kind` the helpers tell apart: `Ptr` and the rest
(`Invalid` is the kind of an untyped `nil`). -/
inductive Kind
  | Invalid
  | Bool
  | Int
  | String
  | Struct
  | Chan
  | Ptr
  deriving DecidableEq, Repr

/-- The parts of the Go runtime and of testify that the helpers call, over a
type `V` of dynamic values (`interface{}`), a type `Ty` of Go types and a type
`Tree` of generic decoded documents. -/
structure Runtime (V Ty Tree : Type) where
  /-- The call `reflect.ValueOf(x).Kind()`. -/
  KindOf : V → Kind
  /-- The call `reflect.TypeOf(x)`, also what `%T` prints. -/
  TypeOf : V → Ty
  /-- The method `Type.Elem()` of a pointer type. -/
  Elem : Ty → Ty
  /-- The function `ObjectsAreEqual` behind testify's `assert.Equal`. -/
  ObjectsAreEqual : V → V → Bool
  /-- The call `json.Unmarshal` into an `interface{}`, as used by `JSONEq`. -/
  jsonUnmarshal : Bytes → Option Tree
  /-- The call `yaml.Unmarshal` into an `interface{}`, as used by `YAMLEq`. -/
  yamlUnmarshal : Bytes → Option Tree
  /-- The function `ObjectsAreEqual` on two parsed documents, as used by
  `JSONEq` and `YAMLEq`; a document holding a NaN is not equal to itself. -/
  TreesAreEqual : Tree → Tree → Bool

/-- Testify's `assert.JSONEq(expected, actual)`: both strings parse as JSON and
`ObjectsAreEqual` accepts the parsed documents. -/
def JSONEq {V Ty Tree : Type} (rt : Runtime V Ty Tree)
    (expected actual : Bytes) : Bool :=
  match rt.jsonUnmarshal expected with
  | none => false
  | some e =>
    match rt.jsonUnmarshal actual with
    | none => false
    | some a => rt.TreesAreEqual e a

/-- Testify's `assert.YAMLEq(expected, actual)`: both strings parse as YAML and
`ObjectsAreEqual` accepts the parsed documents. -/
def YAMLEq {V Ty Tree : Type} (rt : Runtime V Ty Tree)
    (expected actual : Bytes) : Bool :=
  match rt.yamlUnmarshal expected with
  | none => false
  | some e =>
    match rt.yamlUnmarshal actual with
    | none => false
    | some a => rt.TreesAreEqual e a

/-- Testify's `assert.Equal` on two Go strings: plain equality. -/
def StringEqual (expected actual : Bytes) : Bool :=
  decide (expected = actual)

/-- Modelled from the spec: the reference store of `go-golden` (a dependency,
not part of this package) as seen from one test: named byte artifacts. -/
abbrev Store := List (String × Bytes)

/-- Modelled from the spec: `Read(name)` of the reference store, `none` when no
artifact is stored under the name (the not-found condition of `GetP`). -/
def Store.GetP (st : Store) (name : String) : Option Bytes :=
  st.lookup name

/-- Modelled from the spec: `Write(name, bytes)` of the reference store; the
artifact under the name is replaced. -/
def Store.SetP (st : Store) (name : String) (data : Bytes) : Store :=
  (name, data) :: st.filter (fun e => e.1 != name)

/-- The field `Golden` of `Assert`, as far as the helpers read it: the
record/update mode flag `Update()`. -/
structure Golden where
  Update : Bool
  deriving DecidableEq, Repr

/-! ## The test state -/

/-- Calls made to collaborators, in the order they are made. -/
inductive Call (V Ty : Type)
  | Encode (f : Format) (v : V)
  | SetP (name : String) (data : Bytes)
  | GetP (name : String)
  | SerializedEq (f : Format) (gold marshaled : Bytes)
  | Decode (f : Format) (ty : Ty) (gold : Bytes)
  | ObjectEq (want got : V)
  deriving DecidableEq

/-- Failures reported on the `*testing.T`. -/
inductive Failure (Ty : Type)
  /-- Reported by `require.NoErrorf`: "failed to ... marshal %T". -/
  | marshalError (f : Format) (ty : Ty)
  /-- Reported by `GetP` when the golden file cannot be read. -/
  | goldenNotFound (name : String)
  /-- Reported by `JSONEq`, `YAMLEq` or `Equal` on the serialized forms. -/
  | serializedMismatch (f : Format)
  /-- Reported by `require.FailNowf`: "only pointer types can be asserted". -/
  | onlyPointerTypes (ty : Ty)
  /-- Reported by `require.NoErrorf`: "failed to ... unmarshal %T from %s". -/
  | unmarshalError (f : Format) (ty : Ty) (name : String)
  /-- Reported by `assert.Equal`: "unmarshaling from golden file does not
  match expected object". -/
  | objectMismatch
  deriving DecidableEq

/-- What one call of a helper leaves behind: the reference store, the calls
made, the failures reported and whether the test was aborted (`FailNow`). -/
structure Outcome (V Ty : Type) where
  store : Store
  calls : List (Call V Ty)
  failures : List (Failure Ty)
  aborted : Bool
  deriving DecidableEq

/-- The call succeeded: nothing was reported and the test was not aborted. -/
def Outcome.passed {V Ty : Type} (o : Outcome V Ty) : Bool :=
  o.failures.isEmpty && !o.aborted

/-! ## `Assert` and its methods -/

/-- The struct `Assert`.  An encoder function is modelled by what `Encode`
writes for a value (`none` for an error); a decoder function by the instance
`Decode` leaves in a fresh value of the given type (`none` for an error). -/
structure Assert (V Ty : Type) where
  JSONEncoderFunc : V → Option Bytes
  JSONDecoderFunc : Ty → Bytes → Option V
  YAMLEncoderFunc : V → Option Bytes
  YAMLDecoderFunc : Ty → Bytes → Option V
  XMLEncoderFunc : V → Option Bytes
  XMLDecoderFunc : Ty → Bytes → Option V
  Golden : Golden
  NormalizeLineBreaks : Bool

section Methods

variable {V Ty Tree : Type}

/-- The method `Assert.JSONMarshalingP`. -/
def Assert.JSONMarshalingP (rt : Runtime V Ty Tree) (s : Assert V Ty) (st : Store)
    (v want : V) : Outcome V Ty :=
  match s.JSONEncoderFunc v with
  | none =>
    { store := st, calls := [.Encode .json v],
      failures := [.marshalError .json (rt.TypeOf v)], aborted := true }
  | some buf =>
    let marshaled := if s.NormalizeLineBreaks then normalizeLineBreaks buf else buf
    let st1 := if s.Golden.Update then st.SetP "goldsert_json" marshaled else st
    let c1 := [Call.Encode .json v]
      ++ (if s.Golden.Update then [Call.SetP "goldsert_json" marshaled] else [])
      ++ [Call.GetP "goldsert_json"]
    match st1.GetP "goldsert_json" with
    | none =>
      { store := st1, calls := c1,
        failures := [.goldenNotFound "goldsert_json"], aborted := true }
    | some g =>
      let gold := if s.NormalizeLineBreaks then normalizeLineBreaks g else g
      let c2 := c1 ++ [Call.SerializedEq .json gold marshaled]
      let f2 := if JSONEq rt gold marshaled then [] else [Failure.serializedMismatch .json]
      if rt.KindOf want ≠ Kind.Ptr then
        { store := st1, calls := c2,
          failures := f2 ++ [.onlyPointerTypes (rt.TypeOf want)], aborted := true }
      else
        let c3 := c2 ++ [Call.Decode .json (rt.Elem (rt.TypeOf want)) gold]
        match s.JSONDecoderFunc (rt.Elem (rt.TypeOf want)) gold with
        | none =>
          { store := st1, calls := c3,
            failures := f2 ++ [.unmarshalError .json (rt.TypeOf want) "goldsert_json"],
            aborted := true }
        | some got =>
          { store := st1, calls := c3 ++ [Call.ObjectEq want got],
            failures := f2 ++ (if rt.ObjectsAreEqual want got then [] else [.objectMismatch]),
            aborted := false }

/-- The method `Assert.JSONMarshaling`. -/
def Assert.JSONMarshaling (rt : Runtime V Ty Tree) (s : Assert V Ty) (st : Store)
    (v : V) : Outcome V Ty :=
  s.JSONMarshalingP rt st v v

/-- The method `Assert.YAMLMarshalingP`. -/
def Assert.YAMLMarshalingP (rt : Runtime V Ty Tree) (s : Assert V Ty) (st : Store)
    (v want : V) : Outcome V Ty :=
  match s.YAMLEncoderFunc v with
  | none =>
    { store := st, calls := [.Encode .yaml v],
      failures := [.marshalError .yaml (rt.TypeOf v)], aborted := true }
  | some buf =>
    let marshaled := if s.NormalizeLineBreaks then normalizeLineBreaks buf else buf
    let st1 := if s.Golden.Update then st.SetP "goldsert_yaml" marshaled else st
    let c1 := [Call.Encode .yaml v]
      ++ (if s.Golden.Update then [Call.SetP "goldsert_yaml" marshaled] else [])
      ++ [Call.GetP "goldsert_yaml"]
    match st1.GetP "goldsert_yaml" with
    | none =>
      { store := st1, calls := c1,
        failures := [.goldenNotFound "goldsert_yaml"], aborted := true }
    | some g =>
      let gold := if s.NormalizeLineBreaks then normalizeLineBreaks g else g
      let c2 := c1 ++ [Call.SerializedEq .yaml gold marshaled]
      let f2 := if YAMLEq rt gold marshaled then [] else [Failure.serializedMismatch .yaml]
      if rt.KindOf want ≠ Kind.Ptr then
        { store := st1, calls := c2,
          failures := f2 ++ [.onlyPointerTypes (rt.TypeOf want)], aborted := true }
      else
        let c3 := c2 ++ [Call.Decode .yaml (rt.Elem (rt.TypeOf want)) gold]
        match s.YAMLDecoderFunc (rt.Elem (rt.TypeOf want)) gold with
        | none =>
          { store := st1, calls := c3,
            failures := f2 ++ [.unmarshalError .yaml (rt.TypeOf want) "goldsert_yaml"],
            aborted := true }
        | some got =>
          { store := st1, calls := c3 ++ [Call.ObjectEq want got],
            failures := f2 ++ (if rt.ObjectsAreEqual want got then [] else [.objectMismatch]),
            aborted := false }

/-- The method `Assert.YAMLMarshaling`. -/
def Assert.YAMLMarshaling (rt : Runtime V Ty Tree) (s : Assert V Ty) (st : Store)
    (v : V) : Outcome V Ty :=
  s.YAMLMarshalingP rt st v v

/-- The method `Assert.XMLMarshalingP`. -/
def Assert.XMLMarshalingP (rt : Runtime V Ty Tree) (s : Assert V Ty) (st : Store)
    (v want : V) : Outcome V Ty :=
  match s.XMLEncoderFunc v with
  | none =>
    { store := st, calls := [.Encode .xml v],
      failures := [.marshalError .xml (rt.TypeOf v)], aborted := true }
  | some buf =>
    let marshaled := if s.NormalizeLineBreaks then normalizeLineBreaks buf else buf
    let st1 := if s.Golden.Update then st.SetP "goldsert_xml" marshaled else st
    let c1 := [Call.Encode .xml v]
      ++ (if s.Golden.Update then [Call.SetP "goldsert_xml" marshaled] else [])
      ++ [Call.GetP "goldsert_xml"]
    match st1.GetP "goldsert_xml" with
    | none =>
      { store := st1, calls := c1,
        failures := [.goldenNotFound "goldsert_xml"], aborted := true }
    | some g =>
      let gold := if s.NormalizeLineBreaks then normalizeLineBreaks g else g
      let c2 := c1 ++ [Call.SerializedEq .xml gold marshaled]
      let f2 := if StringEqual gold marshaled then [] else [Failure.serializedMismatch .xml]
      if rt.KindOf want ≠ Kind.Ptr then
        { store := st1, calls := c2,
          failures := f2 ++ [.onlyPointerTypes (rt.TypeOf want)], aborted := true }
      else
        let c3 := c2 ++ [Call.Decode .xml (rt.Elem (rt.TypeOf want)) gold]
        match s.XMLDecoderFunc (rt.Elem (rt.TypeOf want)) gold with
        | none =>
          { store := st1, calls := c3,
            failures := f2 ++ [.unmarshalError .xml (rt.TypeOf want) "goldsert_xml"],
            aborted := true }
        | some got =>
          { store := st1, calls := c3 ++ [Call.ObjectEq want got],
            failures := f2 ++ (if rt.ObjectsAreEqual want got then [] else [.objectMismatch]),
            aborted := false }

/-- The method `Assert.XMLMarshaling`. -/
def Assert.XMLMarshaling (rt : Runtime V Ty Tree) (s : Assert V Ty) (st : Store)
    (v : V) : Outcome V Ty :=
  s.XMLMarshalingP rt st v v

/-! ## The three families of helpers, by format -/

/-- The golden-file name each family of helpers passes to `SetP` and `GetP`. -/
def artifactName : Format → String
  | .json => "goldsert_json"
  | .yaml => "goldsert_yaml"
  | .xml => "goldsert_xml"

/-- The encoder function a family of helpers uses. -/
def Assert.encoderOf (s : Assert V Ty) : Format → V → Option Bytes
  | .json => s.JSONEncoderFunc
  | .yaml => s.YAMLEncoderFunc
  | .xml => s.XMLEncoderFunc

/-- The decoder function a family of helpers uses. -/
def Assert.decoderOf (s : Assert V Ty) : Format → Ty → Bytes → Option V
  | .json => s.JSONDecoderFunc
  | .yaml => s.YAMLDecoderFunc
  | .xml => s.XMLDecoderFunc

/-- The comparison of the serialized forms a family of helpers uses: `JSONEq`,
`YAMLEq`, and `Equal` on strings for XML. -/
def serializedEq (rt : Runtime V Ty Tree) : Format → Bytes → Bytes → Bool
  | .json => JSONEq rt
  | .yaml => YAMLEq rt
  | .xml => StringEqual

/-- The generic document a byte sequence stands for in a format: what the
comparison of the format parses for JSON and YAML, and a given reading
`xmlTree` for XML, where the helpers parse nothing. -/
def treeOf (rt : Runtime V Ty Tree) (xmlTree : Bytes → Option Tree) :
    Format → Bytes → Option Tree
  | .json => rt.jsonUnmarshal
  | .yaml => rt.yamlUnmarshal
  | .xml => xmlTree

/-- The step `if s.NormalizeLineBreaks { b = normalizeLineBreaks(b) }` applied
to the encoded bytes and to the reference bytes. -/
def Assert.prepare (s : Assert V Ty) (b : Bytes) : Bytes :=
  if s.NormalizeLineBreaks then normalizeLineBreaks b else b

/-- The step `if s.Golden.Update() { s.Golden.SetP(t, name, marshaled) }`:
the store the reference is then read from. -/
def Assert.recorded (s : Assert V Ty) (f : Format) (st : Store) (marshaled : Bytes) : Store :=
  if s.Golden.Update then st.SetP (artifactName f) marshaled else st

/-- The round trip of the specification: `decode(encode(v))` succeeds and is
structurally equal to `want`. -/
def Assert.roundTrips (rt : Runtime V Ty Tree) (s : Assert V Ty) (f : Format)
    (v want : V) : Bool :=
  match s.encoderOf f v with
  | none => false
  | some b =>
    match s.decoderOf f (rt.Elem (rt.TypeOf want)) b with
    | none => false
    | some got => rt.ObjectsAreEqual want got

/-- The helper `JSONMarshalingP`, `YAMLMarshalingP` or `XMLMarshalingP`. -/
def Assert.MarshalingP (rt : Runtime V Ty Tree) (s : Assert V Ty) (f : Format)
    (st : Store) (v want : V) : Outcome V Ty :=
  match f with
  | .json => s.JSONMarshalingP rt st v want
  | .yaml => s.YAMLMarshalingP rt st v want
  | .xml => s.XMLMarshalingP rt st v want

/-- The helper `JSONMarshaling`, `YAMLMarshaling` or `XMLMarshaling`. -/
def Assert.Marshaling (rt : Runtime V Ty Tree) (s : Assert V Ty) (f : Format)
    (st : Store) (v : V) : Outcome V Ty :=
  match f with
  | .json => s.JSONMarshaling rt st v
  | .yaml => s.YAMLMarshaling rt st v
  | .xml => s.XMLMarshaling rt st v

/-- The instance handed to the final `assert.Equal`, when that call is
reached. -/
def Outcome.decoded (o : Outcome V Ty) : Option V :=
  o.calls.findSome? fun c =>
    match c with
    | .ObjectEq _ got => some got
    | _ => none

/-- The verdict of the final `assert.Equal`: whether it reported a mismatch. -/
def Outcome.objectMismatch [DecidableEq Ty] (o : Outcome V Ty) : Bool :=
  decide (Failure.objectMismatch ∈ o.failures)

/-- The verdict of the comparison of the serialized forms: whether it reported
a mismatch. -/
def Outcome.serializedMismatch [DecidableEq Ty] (o : Outcome V Ty) (f : Format) : Bool :=
  decide (Failure.serializedMismatch f ∈ o.failures)

end Methods

/-! ## A small concrete world

A toy text codec, used to run the helpers on concrete inputs. -/

namespace Demo

/-- Go types of the toy world. -/
inductive Ty
  | Text
  | PtrText
  | Chan
  deriving DecidableEq, Repr

/-- Values of the toy world: a text, a pointer to a text, a channel. -/
inductive Val
  | text (b : Bytes)
  | ptr (b : Bytes)
  | chan
  deriving DecidableEq, Repr

/-- White space of the toy codec: LF, CR and blank. -/
def isSpace (b : Byte) : Bool :=
  b = 10 || b = 13 || b = 32

/-- The toy document reader: the bytes that are not white space. -/
def tree (data : Bytes) : Option Bytes :=
  some (data.filter fun b => !isSpace b)

/-- The toy document `.nan`, which reads as a NaN. -/
def nan : Bytes := [46, 110, 97, 110]

/-- The toy comparison of two documents: equal, and not the NaN, which as in Go
is not equal to itself. -/
def treesAreEqual (a b : Bytes) : Bool :=
  decide (a = b) && !decide (a = nan)

/-- The toy encoder: the text followed by a line break; channels do not
encode. -/
def encode : Val → Option Bytes
  | .text b => some (b ++ [10])
  | .ptr b => some (b ++ [10])
  | .chan => none

/-- The toy decoder: fills a text with the bytes that are not white space; an
empty document and a target that is not a text are errors. -/
def decode (ty : Ty) (data : Bytes) : Option Val :=
  if ty = Ty.Text ∧ data ≠ [] then some (.ptr (data.filter fun b => !isSpace b)) else none

/-- Reflection and comparison in the toy world. -/
def rt : Runtime Val Ty Bytes where
  KindOf := fun v =>
    match v with
    | .text _ => Kind.String
    | .ptr _ => Kind.Ptr
    | .chan => Kind.Chan
  TypeOf := fun v =>
    match v with
    | .text _ => Ty.Text
    | .ptr _ => Ty.PtrText
    | .chan => Ty.Chan
  Elem := fun _ => Ty.Text
  ObjectsAreEqual := fun a b => decide (a = b)
  jsonUnmarshal := tree
  yamlUnmarshal := tree
  TreesAreEqual := treesAreEqual

/-- An `Assert` of the toy world. -/
def assert (update normalize : Bool) : Assert Val Ty where
  JSONEncoderFunc := encode
  JSONDecoderFunc := decode
  YAMLEncoderFunc := encode
  YAMLDecoderFunc := decode
  XMLEncoderFunc := encode
  XMLDecoderFunc := decode
  Golden := { Update := update }
  NormalizeLineBreaks := normalize

end Demo

end Goldsert

namespace Goldsert

/-! ## The normalizer -/

/-- Replacing CR alone is a bytewise map. -/
theorem replaceAll_cr (s : Bytes) :
    ReplaceAll s 13 [] [10] = s.map (fun b => if b = 13 then 10 else b) := by
  unfold ReplaceAll
  induction s with
  | nil => simp [ReplaceAll.go]
  | cons b rest ih =>
    by_cases h : b = 13
    · simp [ReplaceAll.go, h, ih]
    · simp [ReplaceAll.go, h, ih]

theorem replaceAll_crlf_nil : ReplaceAll [] 13 [10] [10] = [] := by
  simp [ReplaceAll, ReplaceAll.go]

theorem replaceAll_crlf_single (b : Byte) : ReplaceAll [b] 13 [10] [10] = [b] := by
  simp [ReplaceAll, ReplaceAll.go]

theorem replaceAll_crlf_cons (b c : Byte) (rest : Bytes) :
    ReplaceAll (b :: c :: rest) 13 [10] [10] =
      if b = 13 ∧ c = 10 then 10 :: ReplaceAll rest 13 [10] [10]
      else b :: ReplaceAll (c :: rest) 13 [10] [10] := by
  by_cases h : b = 13 ∧ c = 10
  · obtain ⟨hb, hc⟩ := h
    subst hb hc
    simp [ReplaceAll, ReplaceAll.go]
  · rw [if_neg h]
    simp only [ReplaceAll, ReplaceAll.go]
    rw [if_neg]
    intro h2
    apply h
    refine ⟨h2.1, ?_⟩
    have h3 := h2.2
    simp [List.isPrefixOf] at h3
    exact h3.symm

/-- Induction over byte sequences two bytes at a time. -/
theorem bytes_two_step {P : Bytes → Prop} (h0 : P []) (h1 : ∀ b, P [b])
    (h2 : ∀ b c rest, P rest → P (c :: rest) → P (b :: c :: rest)) : ∀ s, P s := by
  have key : ∀ s : Bytes, P s ∧ ∀ b, P (b :: s) := by
    intro s
    induction s with
    | nil => exact ⟨h0, h1⟩
    | cons c rest ih => exact ⟨ih.2 c, fun b => h2 b c rest ih.1 (ih.2 c)⟩
  exact fun s => (key s).1

theorem normalizeLineBreaks_eq_scan (s : Bytes) :
    normalizeLineBreaks s = scanLineBreaks s := by
  unfold normalizeLineBreaks
  simp only [replaceAll_cr]
  induction s using bytes_two_step with
  | h0 => simp [replaceAll_crlf_nil, scanLineBreaks]
  | h1 b => by_cases hb : b = 13 <;> simp [replaceAll_crlf_single, scanLineBreaks, hb]
  | h2 b c rest ih1 ih2 =>
    rw [replaceAll_crlf_cons, scanLineBreaks]
    by_cases h : b = 13 ∧ c = 10
    · rw [if_pos h, if_pos h]
      simp [ih1]
    · rw [if_neg h, if_neg h]
      simp [ih2]

theorem scan_no_cr (s : Bytes) : (13 : Byte) ∉ scanLineBreaks s := by
  induction s using bytes_two_step with
  | h0 => simp [scanLineBreaks]
  | h1 b =>
    by_cases h : b = 13
    · simp [scanLineBreaks, h]
    · simp [scanLineBreaks, h]; exact fun h2 => h h2.symm
  | h2 b c rest ih1 ih2 =>
    rw [scanLineBreaks]
    by_cases h : b = 13 ∧ c = 10
    · rw [if_pos h]
      simp [ih1]
    · rw [if_neg h]
      by_cases hb : b = 13
      · simp [hb, ih2]
      · simp [hb, ih2]; exact fun h2 => hb h2.symm

theorem scan_of_no_cr (s : Bytes) (h : (13 : Byte) ∉ s) : scanLineBreaks s = s := by
  induction s using bytes_two_step with
  | h0 => simp [scanLineBreaks]
  | h1 b =>
    have hb : b ≠ 13 := fun e => h (by simp [e])
    simp [scanLineBreaks, hb]
  | h2 b c rest ih1 ih2 =>
    have hb : b ≠ 13 := fun e => h (by simp [e])
    have ht : (13 : Byte) ∉ c :: rest := fun e => h (List.mem_cons_of_mem _ e)
    have hbc : ¬(b = 13 ∧ c = 10) := fun e => hb e.1
    rw [scanLineBreaks, if_neg hbc, ih2 ht]
    simp [hb]

theorem normalizeLineBreaks_idem (s : Bytes) :
    normalizeLineBreaks (normalizeLineBreaks s) = normalizeLineBreaks s := by
  rw [normalizeLineBreaks_eq_scan (normalizeLineBreaks s), normalizeLineBreaks_eq_scan s]
  exact scan_of_no_cr _ (scan_no_cr s)

theorem scan_cons_of_ne (b : Byte) (rest : Bytes) (hb : b ≠ 13) :
    scanLineBreaks (b :: rest) = b :: scanLineBreaks rest := by
  cases rest with
  | nil => simp [scanLineBreaks, hb]
  | cons c rest => simp [scanLineBreaks, hb]

theorem scan_crlf (rest : Bytes) :
    scanLineBreaks (13 :: 10 :: rest) = 10 :: scanLineBreaks rest := by
  simp [scanLineBreaks]

/-- Scanning the CRLF form of a text without CR gives the text back. -/
theorem scan_toCRLF (m : Bytes) (hcr : (13 : Byte) ∉ m) : scanLineBreaks (toCRLF m) = m := by
  induction m with
  | nil => simp [toCRLF, scanLineBreaks]
  | cons b rest ih =>
    have hb : b ≠ 13 := fun e => hcr (by simp [e])
    have hrest : (13 : Byte) ∉ rest := fun e => hcr (List.mem_cons_of_mem _ e)
    by_cases h10 : b = 10
    · subst h10
      simp only [toCRLF, if_true]
      rw [scan_crlf, ih hrest]
    · simp only [toCRLF, if_neg h10]
      rw [scan_cons_of_ne b _ hb, ih hrest]

/-! ## The reference store -/

theorem Store.GetP_SetP (st : Store) (name : String) (data : Bytes) :
    (st.SetP name data).GetP name = some data := by
  simp [Store.GetP, Store.SetP, List.lookup]

theorem Store.GetP_SetP_of_ne (st : Store) (name other : String) (data : Bytes)
    (hne : other ≠ name) : (st.SetP name data).GetP other = st.GetP other := by
  have hbeq : (other == name) = false := by simpa using hne
  simp only [Store.GetP, Store.SetP, List.lookup, hbeq]
  induction st with
  | nil => rfl
  | cons e rest ih =>
    obtain ⟨k, d⟩ := e
    by_cases hk : k = name
    · subst hk
      simp [List.filter, List.lookup, hbeq, ih]
    · have hkn : (k != name) = true := by simpa using hk
      by_cases ho : other = k
      · subst ho
        simp [List.filter_cons, List.lookup, hkn]
      · have hok : (other == k) = false := by simpa using ho
        simp [List.filter_cons, List.lookup, hkn, hok, ih]

section Verifier

variable {V Ty Tree : Type}

theorem recorded_GetP_update (s : Assert V Ty) (f : Format) (st : Store) (m : Bytes)
    (hu : s.Golden.Update = true) :
    (s.recorded f st m).GetP (artifactName f) = some m := by
  simp [Assert.recorded, hu, Store.GetP_SetP]

theorem recorded_no_update (s : Assert V Ty) (f : Format) (st : Store) (m : Bytes)
    (hu : s.Golden.Update = false) : s.recorded f st m = st := by
  simp [Assert.recorded, hu]

theorem prepare_idem (s : Assert V Ty) (b : Bytes) : s.prepare (s.prepare b) = s.prepare b := by
  unfold Assert.prepare
  split
  · exact normalizeLineBreaks_idem b
  · rfl

/-- The three helpers follow one protocol: the outcome of each, path by
path. -/
theorem MarshalingP_eq (rt : Runtime V Ty Tree) (s : Assert V Ty) (f : Format)
    (st : Store) (v want : V) :
    s.MarshalingP rt f st v want =
      match s.encoderOf f v with
      | none =>
        { store := st, calls := [.Encode f v],
          failures := [.marshalError f (rt.TypeOf v)], aborted := true }
      | some buf =>
        match (s.recorded f st (s.prepare buf)).GetP (artifactName f) with
        | none =>
          { store := s.recorded f st (s.prepare buf),
            calls := [Call.Encode f v]
              ++ (if s.Golden.Update then [Call.SetP (artifactName f) (s.prepare buf)] else [])
              ++ [Call.GetP (artifactName f)],
            failures := [.goldenNotFound (artifactName f)], aborted := true }
        | some g =>
          if rt.KindOf want ≠ Kind.Ptr then
            { store := s.recorded f st (s.prepare buf),
              calls := [Call.Encode f v]
                ++ (if s.Golden.Update then [Call.SetP (artifactName f) (s.prepare buf)] else [])
                ++ [Call.GetP (artifactName f)]
                ++ [Call.SerializedEq f (s.prepare g) (s.prepare buf)],
              failures :=
                (if serializedEq rt f (s.prepare g) (s.prepare buf) then []
                  else [Failure.serializedMismatch f])
                ++ [.onlyPointerTypes (rt.TypeOf want)],
              aborted := true }
          else
            match s.decoderOf f (rt.Elem (rt.TypeOf want)) (s.prepare g) with
            | none =>
              { store := s.recorded f st (s.prepare buf),
                calls := [Call.Encode f v]
                  ++ (if s.Golden.Update then [Call.SetP (artifactName f) (s.prepare buf)] else [])
                  ++ [Call.GetP (artifactName f)]
                  ++ [Call.SerializedEq f (s.prepare g) (s.prepare buf)]
                  ++ [Call.Decode f (rt.Elem (rt.TypeOf want)) (s.prepare g)],
                failures :=
                  (if serializedEq rt f (s.prepare g) (s.prepare buf) then []
                    else [Failure.serializedMismatch f])
                  ++ [.unmarshalError f (rt.TypeOf want) (artifactName f)],
                aborted := true }
            | some got =>
              { store := s.recorded f st (s.prepare buf),
                calls := [Call.Encode f v]
                  ++ (if s.Golden.Update then [Call.SetP (artifactName f) (s.prepare buf)] else [])
                  ++ [Call.GetP (artifactName f)]
                  ++ [Call.SerializedEq f (s.prepare g) (s.prepare buf)]
                  ++ [Call.Decode f (rt.Elem (rt.TypeOf want)) (s.prepare g)]
                  ++ [Call.ObjectEq want got],
                failures :=
                  (if serializedEq rt f (s.prepare g) (s.prepare buf) then []
                    else [Failure.serializedMismatch f])
                  ++ (if rt.ObjectsAreEqual want got then [] else [.objectMismatch]),
                aborted := false } := by
  cases f <;> rfl

/-- The store a call leaves behind once the value has encoded. -/
theorem store_eq (rt : Runtime V Ty Tree) (s : Assert V Ty) (f : Format)
    (st : Store) (v want : V) (b : Bytes) (henc : s.encoderOf f v = some b) :
    (s.MarshalingP rt f st v want).store = s.recorded f st (s.prepare b) := by
  rw [MarshalingP_eq, henc]
  dsimp only
  split
  · rfl
  · split
    · rfl
    · split <;> rfl

/-- The instance handed to the final comparison, read off the protocol. -/
theorem decoded_eq (rt : Runtime V Ty Tree) (s : Assert V Ty) (f : Format)
    (st : Store) (v want : V) (b : Bytes) (henc : s.encoderOf f v = some b) :
    (s.MarshalingP rt f st v want).decoded =
      match (s.recorded f st (s.prepare b)).GetP (artifactName f) with
      | none => none
      | some g =>
        if rt.KindOf want ≠ Kind.Ptr then none
        else s.decoderOf f (rt.Elem (rt.TypeOf want)) (s.prepare g) := by
  rw [MarshalingP_eq, henc]
  cases hg : (s.recorded f st (s.prepare b)).GetP (artifactName f) with
  | none => cases s.Golden.Update <;> simp [Outcome.decoded, List.findSome?, hg]
  | some g =>
    by_cases hk : rt.KindOf want = Kind.Ptr
    · cases hd : s.decoderOf f (rt.Elem (rt.TypeOf want)) (s.prepare g) with
      | none => cases s.Golden.Update <;> simp [Outcome.decoded, List.findSome?, hg, hk, hd]
      | some got => cases s.Golden.Update <;> simp [Outcome.decoded, List.findSome?, hg, hk, hd]
    · cases s.Golden.Update <;> simp [Outcome.decoded, List.findSome?, hg, hk]

/-- The verdict of the final comparison, read off the protocol. -/
theorem objectMismatch_eq [DecidableEq Ty] (rt : Runtime V Ty Tree) (s : Assert V Ty)
    (f : Format) (st : Store) (v want : V) (b : Bytes) (henc : s.encoderOf f v = some b) :
    (s.MarshalingP rt f st v want).objectMismatch =
      match (s.recorded f st (s.prepare b)).GetP (artifactName f) with
      | none => false
      | some g =>
        if rt.KindOf want ≠ Kind.Ptr then false
        else
          match s.decoderOf f (rt.Elem (rt.TypeOf want)) (s.prepare g) with
          | none => false
          | some got => !rt.ObjectsAreEqual want got := by
  rw [MarshalingP_eq, henc]
  cases hg : (s.recorded f st (s.prepare b)).GetP (artifactName f) with
  | none => simp [Outcome.objectMismatch, hg]
  | some g =>
    by_cases hk : rt.KindOf want = Kind.Ptr
    · cases hd : s.decoderOf f (rt.Elem (rt.TypeOf want)) (s.prepare g) with
      | none =>
        cases hs : serializedEq rt f (s.prepare g) (s.prepare b) <;>
          simp [Outcome.objectMismatch, hg, hk, hd, hs]
      | some got =>
        cases hs : serializedEq rt f (s.prepare g) (s.prepare b) <;>
          cases ho : rt.ObjectsAreEqual want got <;>
          simp [Outcome.objectMismatch, hg, hk, hd, hs, ho]
    · cases hs : serializedEq rt f (s.prepare g) (s.prepare b) <;>
        simp [Outcome.objectMismatch, hg, hk, hs]

/-- When a call passes, read off the protocol. -/
theorem passed_iff (rt : Runtime V Ty Tree) (s : Assert V Ty) (f : Format)
    (st : Store) (v want : V) (hptr : rt.KindOf want = Kind.Ptr) :
    (s.MarshalingP rt f st v want).passed = true ↔
      ∃ b g got, s.encoderOf f v = some b ∧
        (s.recorded f st (s.prepare b)).GetP (artifactName f) = some g ∧
        serializedEq rt f (s.prepare g) (s.prepare b) = true ∧
        s.decoderOf f (rt.Elem (rt.TypeOf want)) (s.prepare g) = some got ∧
        rt.ObjectsAreEqual want got = true := by
  rw [MarshalingP_eq]
  cases henc : s.encoderOf f v with
  | none => simp [Outcome.passed]
  | some b =>
    cases hg : (s.recorded f st (s.prepare b)).GetP (artifactName f) with
    | none => simp [Outcome.passed, hg]
    | some g =>
      cases hd : s.decoderOf f (rt.Elem (rt.TypeOf want)) (s.prepare g) with
      | none => simp [Outcome.passed, hptr, hg, hd]
      | some got =>
        cases hs : serializedEq rt f (s.prepare g) (s.prepare b) <;>
          cases ho : rt.ObjectsAreEqual want got <;>
          simp [Outcome.passed, hptr, hg, hd, hs, ho]

/-- The verdict on the serialized forms, read off the protocol: a mismatch is
reported exactly when the comparison of the format rejects the prepared
reference against the prepared encoding. -/
theorem serializedMismatch_eq [DecidableEq Ty] (rt : Runtime V Ty Tree) (s : Assert V Ty)
    (f : Format) (st : Store) (v want : V) (b g : Bytes)
    (henc : s.encoderOf f v = some b)
    (hgold : (s.recorded f st (s.prepare b)).GetP (artifactName f) = some g) :
    (s.MarshalingP rt f st v want).serializedMismatch f =
      !serializedEq rt f (s.prepare g) (s.prepare b) := by
  rw [MarshalingP_eq, henc]
  simp only [hgold]
  by_cases hk : rt.KindOf want = Kind.Ptr
  · cases hd : s.decoderOf f (rt.Elem (rt.TypeOf want)) (s.prepare g) with
    | none =>
      cases hs : serializedEq rt f (s.prepare g) (s.prepare b) <;>
        simp [Outcome.serializedMismatch, hk, hd, hs]
    | some got =>
      cases hs : serializedEq rt f (s.prepare g) (s.prepare b) <;>
        cases ho : rt.ObjectsAreEqual want got <;>
        simp [Outcome.serializedMismatch, hk, hd, hs, ho]
  · cases hs : serializedEq rt f (s.prepare g) (s.prepare b) <;>
      simp [Outcome.serializedMismatch, hk, hs]

/-- Once a reference is read, the comparison of the serialized forms is called
on the prepared reference and the prepared encoding. -/
theorem serializedEq_called (rt : Runtime V Ty Tree) (s : Assert V Ty)
    (f : Format) (st : Store) (v want : V) (b g : Bytes)
    (henc : s.encoderOf f v = some b)
    (hgold : (s.recorded f st (s.prepare b)).GetP (artifactName f) = some g) :
    Call.SerializedEq f (s.prepare g) (s.prepare b) ∈ (s.MarshalingP rt f st v want).calls := by
  rw [MarshalingP_eq, henc]
  simp only [hgold]
  split
  · simp
  · split <;> simp

/-! ## Claims about the helpers -/

/-- C2: for each format and every configuration, store, update setting and
value, `Marshaling(t, v)` has exactly the outcome of `MarshalingP(t, v, v)`:
the same failures, the same abort, the same calls and the same store. -/
theorem marshaling_eq_marshalingP (rt : Runtime V Ty Tree) (s : Assert V Ty) (f : Format)
    (st : Store) (v : V) :
    s.Marshaling rt f st v = s.MarshalingP rt f st v v := by
  cases f <;> rfl

/-- C8: for each format, when the encoder returns an error for `v`, the call
aborts at once: the only call made is the encoding, so nothing is written to
or read from the store, nothing is decoded and nothing is compared; the one
failure reported is the marshal error and the store is as it was, also in
update mode. -/
theorem encode_error_aborts (rt : Runtime V Ty Tree) (s : Assert V Ty) (f : Format)
    (st : Store) (v want : V) (henc : s.encoderOf f v = none) :
    s.MarshalingP rt f st v want =
      { store := st, calls := [.Encode f v],
        failures := [.marshalError f (rt.TypeOf v)], aborted := true } := by
  rw [MarshalingP_eq, henc]

/-- Witness of C8: a channel does not encode; in update mode the store stays
empty. -/
theorem encode_error_aborts_witness :
    (Demo.assert true true).encoderOf .json Demo.Val.chan = none ∧
    (Demo.assert true true).MarshalingP Demo.rt .json [] Demo.Val.chan (.ptr [65]) =
      { store := [], calls := [.Encode .json Demo.Val.chan],
        failures := [.marshalError .json Demo.Ty.Chan], aborted := true } :=
  ⟨by decide, encode_error_aborts Demo.rt (Demo.assert true true) .json [] Demo.Val.chan
    (.ptr [65]) (by decide)⟩

/-- C5: for each format and either setting of `NormalizeLineBreaks`, when
update mode is active and `v` encodes to `b`, the prepared encoding is written
under the format's name, and the reference read back and prepared for the
comparison is byte for byte that prepared encoding, whatever the store held:
the comparison of the serialized forms is called on the pair (m, m). -/
theorem update_reads_back_written (rt : Runtime V Ty Tree) (s : Assert V Ty) (f : Format)
    (st : Store) (v want : V) (b : Bytes)
    (hu : s.Golden.Update = true) (henc : s.encoderOf f v = some b) :
    (s.recorded f st (s.prepare b)).GetP (artifactName f) = some (s.prepare b) ∧
    s.prepare (s.prepare b) = s.prepare b ∧
    (s.MarshalingP rt f st v want).store.GetP (artifactName f) = some (s.prepare b) ∧
    ∃ rest, (s.MarshalingP rt f st v want).calls =
      [Call.Encode f v, Call.SetP (artifactName f) (s.prepare b), Call.GetP (artifactName f),
        Call.SerializedEq f (s.prepare b) (s.prepare b)] ++ rest := by
  have hg := recorded_GetP_update s f st (s.prepare b) hu
  refine ⟨hg, prepare_idem s b, ?_, ?_⟩
  · rw [MarshalingP_eq, henc]
    simp only [hg]
    split
    · exact hg
    · split <;> exact hg
  · rw [MarshalingP_eq, henc]
    simp only [hg, prepare_idem, hu]
    split
    · exact ⟨[], by simp⟩
    · split
      · exact ⟨[Call.Decode f (rt.Elem (rt.TypeOf want)) (s.prepare b)], by simp⟩
      · rename_i got _
        exact ⟨[Call.Decode f (rt.Elem (rt.TypeOf want)) (s.prepare b),
          Call.ObjectEq want got], by simp⟩

/-- Witness of C5: the store holds other bytes with CRLF line breaks before
the call. -/
theorem update_reads_back_written_witness :
    (Demo.assert true true).Golden.Update = true ∧
    (Demo.assert true true).encoderOf .xml (Demo.Val.ptr [65, 13]) = some [65, 13, 10] ∧
    ((Demo.assert true true).MarshalingP Demo.rt .xml [("goldsert_xml", [66, 13, 10])]
      (Demo.Val.ptr [65, 13]) (.ptr [65])).store.GetP (artifactName .xml)
      = some ((Demo.assert true true).prepare [65, 13, 10]) :=
  ⟨by decide, by decide,
    (update_reads_back_written Demo.rt (Demo.assert true true) .xml
      [("goldsert_xml", [66, 13, 10])] (Demo.Val.ptr [65, 13]) (.ptr [65]) [65, 13, 10]
      (by decide) (by decide)).2.2.1⟩

/-- C9: for each format, when `v` encodes, the expected value is a pointer and
the reference read decodes without error, the call is not aborted: the
comparison of the serialized forms, the decoding of the reference and the
comparison of the decoded instance are all made, in this order, and each
mismatch is reported as a failure of its own. -/
theorem mismatches_do_not_abort (rt : Runtime V Ty Tree) (s : Assert V Ty) (f : Format)
    (st : Store) (v want got : V) (b g : Bytes)
    (henc : s.encoderOf f v = some b) (hptr : rt.KindOf want = Kind.Ptr)
    (hgold : (s.recorded f st (s.prepare b)).GetP (artifactName f) = some g)
    (hdec : s.decoderOf f (rt.Elem (rt.TypeOf want)) (s.prepare g) = some got) :
    (s.MarshalingP rt f st v want).aborted = false ∧
    (s.MarshalingP rt f st v want).failures =
      (if serializedEq rt f (s.prepare g) (s.prepare b) then []
        else [Failure.serializedMismatch f])
      ++ (if rt.ObjectsAreEqual want got then [] else [Failure.objectMismatch]) ∧
    ∃ pre, (s.MarshalingP rt f st v want).calls =
      pre ++ [Call.SerializedEq f (s.prepare g) (s.prepare b),
        Call.Decode f (rt.Elem (rt.TypeOf want)) (s.prepare g), Call.ObjectEq want got] := by
  rw [MarshalingP_eq, henc]
  simp only [hgold, hptr, hdec, ne_eq, not_true_eq_false, if_false]
  refine ⟨trivial, trivial, ?_⟩
  exact ⟨[Call.Encode f v]
    ++ (if s.Golden.Update then [Call.SetP (artifactName f) (s.prepare b)] else [])
    ++ [Call.GetP (artifactName f)], by simp⟩

/-- Witness of C9: both comparisons fail, both are reported and the call is
not aborted. -/
theorem mismatches_do_not_abort_witness :
    ((Demo.assert false true).MarshalingP Demo.rt .json [("goldsert_json", [66, 10])]
      (Demo.Val.ptr [65]) (.ptr [65])).aborted = false ∧
    ((Demo.assert false true).MarshalingP Demo.rt .json [("goldsert_json", [66, 10])]
      (Demo.Val.ptr [65]) (.ptr [65])).failures =
      [Failure.serializedMismatch .json, Failure.objectMismatch] :=
  have h := mismatches_do_not_abort Demo.rt (Demo.assert false true) .json
    [("goldsert_json", [66, 10])] (Demo.Val.ptr [65]) (.ptr [65]) (.ptr [66]) [65, 10] [66, 10]
    (by decide) (by decide) (by decide) (by decide)
  ⟨h.1, h.2.1.trans (by decide)⟩

/-- C7, as stated, fails: with update mode inactive and no golden file, a
call with an expected value that is not a pointer aborts on the missing file;
the usage error is never reported. -/
theorem non_pointer_usage_error_counterexample :
    Demo.rt.KindOf (Demo.Val.text [65]) ≠ Kind.Ptr ∧
    (Demo.assert false true).MarshalingP Demo.rt .json [] (Demo.Val.ptr [65]) (.text [65]) =
      { store := [], calls := [.Encode .json (Demo.Val.ptr [65]), .GetP "goldsert_json"],
        failures := [.goldenNotFound "goldsert_json"], aborted := true } ∧
    Failure.onlyPointerTypes Demo.Ty.Text ∉
      ((Demo.assert false true).MarshalingP Demo.rt .json [] (Demo.Val.ptr [65])
        (.text [65])).failures := by
  decide

/-- C7, amended: for every format, when `v` encodes without error and a
reference is read (in update mode, or from an existing golden file), a call
with an expected value whose kind is not a pointer aborts with the usage error
"only pointer types can be asserted" carrying the type of the expected value,
reported after the verdict on the serialized forms; nothing is decoded. -/
theorem non_pointer_usage_error (rt : Runtime V Ty Tree) (s : Assert V Ty) (f : Format)
    (st : Store) (v want : V) (b g : Bytes)
    (hkind : rt.KindOf want ≠ Kind.Ptr) (henc : s.encoderOf f v = some b)
    (hgold : (s.recorded f st (s.prepare b)).GetP (artifactName f) = some g) :
    (s.MarshalingP rt f st v want).aborted = true ∧
    (s.MarshalingP rt f st v want).failures =
      (if serializedEq rt f (s.prepare g) (s.prepare b) then []
        else [Failure.serializedMismatch f])
      ++ [Failure.onlyPointerTypes (rt.TypeOf want)] ∧
    (s.MarshalingP rt f st v want).decoded = none ∧
    ∀ ty data, Call.Decode f ty data ∉ (s.MarshalingP rt f st v want).calls := by
  rw [MarshalingP_eq, henc]
  simp only [hgold, hkind, ne_eq, not_false_eq_true, if_true]
  refine ⟨trivial, trivial, ?_, ?_⟩
  · cases s.Golden.Update <;> simp [Outcome.decoded, List.findSome?]
  · intro ty data
    cases s.Golden.Update <;> simp

/-- Witness of C7, amended: a text where a pointer is expected, against a
matching golden file. -/
theorem non_pointer_usage_error_witness :
    ((Demo.assert false true).MarshalingP Demo.rt .yaml [("goldsert_yaml", [65, 10])]
      (Demo.Val.ptr [65]) (.text [65])).aborted = true ∧
    ((Demo.assert false true).MarshalingP Demo.rt .yaml [("goldsert_yaml", [65, 10])]
      (Demo.Val.ptr [65]) (.text [65])).failures = [Failure.onlyPointerTypes Demo.Ty.Text] :=
  have h := non_pointer_usage_error Demo.rt (Demo.assert false true) .yaml
    [("goldsert_yaml", [65, 10])] (Demo.Val.ptr [65]) (.text [65]) [65, 10] [65, 10]
    (by decide) (by decide) (by decide)
  ⟨h.1, h.2.1.trans (by decide)⟩

/-- C6, as stated, fails: with update mode inactive and no golden file, a
value that does not encode makes the call abort on the marshal error before
the store is read; no not-found condition is reported. -/
theorem missing_golden_counterexample :
    (Demo.assert false true).Golden.Update = false ∧
    Store.GetP [] (artifactName .json) = none ∧
    (Demo.assert false true).MarshalingP Demo.rt .json [] Demo.Val.chan (.ptr [65]) =
      { store := [], calls := [.Encode .json Demo.Val.chan],
        failures := [.marshalError .json Demo.Ty.Chan], aborted := true } ∧
    Failure.goldenNotFound "goldsert_json" ∉
      ((Demo.assert false true).MarshalingP Demo.rt .json [] Demo.Val.chan
        (.ptr [65])).failures := by
  decide

/-- C6, amended: for each format, every value and every expected value, when
update mode is inactive and the store holds no artifact under the format's
name, the call does not succeed and the store still holds no artifact under
that name; when moreover `v` encodes without error, the failure reported is
the not-found condition for that name, and nothing else is reported. -/
theorem missing_golden_not_found (rt : Runtime V Ty Tree) (s : Assert V Ty) (f : Format)
    (st : Store) (v want : V)
    (hu : s.Golden.Update = false) (hmiss : st.GetP (artifactName f) = none) :
    (s.MarshalingP rt f st v want).passed = false ∧
    (s.MarshalingP rt f st v want).store = st ∧
    (s.MarshalingP rt f st v want).store.GetP (artifactName f) = none ∧
    (∀ b, s.encoderOf f v = some b →
      (s.MarshalingP rt f st v want).failures = [Failure.goldenNotFound (artifactName f)]) := by
  rw [MarshalingP_eq]
  cases henc : s.encoderOf f v with
  | none => simp [Outcome.passed, hmiss]
  | some b =>
    simp only [recorded_no_update s f st _ hu, hmiss]
    simp [Outcome.passed]

/-- Witness of C6, amended: an empty store, update mode inactive. -/
theorem missing_golden_not_found_witness :
    ((Demo.assert false false).MarshalingP Demo.rt .xml [] (Demo.Val.ptr [65])
      (.ptr [65])).passed = false ∧
    ((Demo.assert false false).MarshalingP Demo.rt .xml [] (Demo.Val.ptr [65])
      (.ptr [65])).failures = [Failure.goldenNotFound "goldsert_xml"] :=
  have h := missing_golden_not_found Demo.rt (Demo.assert false false) .xml []
    (Demo.Val.ptr [65]) (.ptr [65]) (by decide) (by decide)
  ⟨h.1, h.2.2.2 [65, 10] (by decide)⟩

/-- C3: for each format, when the values encode without error and the
expected value is a pointer, the instance handed to the final comparison is
the decoding of the prepared reference read from the store, not of the encoded
bytes; with update mode inactive that reference is the stored artifact, so two
calls with values `v1` and `v2`, the same store and the same expected value
hand over the same instance and report the same verdict on it. -/
theorem decoded_from_reference [DecidableEq Ty] (rt : Runtime V Ty Tree) (s : Assert V Ty)
    (f : Format) (st : Store) (v1 v2 want : V) (b1 b2 : Bytes)
    (hptr : rt.KindOf want = Kind.Ptr)
    (h1 : s.encoderOf f v1 = some b1) (h2 : s.encoderOf f v2 = some b2) :
    (s.MarshalingP rt f st v1 want).decoded =
      ((s.MarshalingP rt f st v1 want).store.GetP (artifactName f)).bind
        (fun g => s.decoderOf f (rt.Elem (rt.TypeOf want)) (s.prepare g)) ∧
    (s.Golden.Update = false →
      (s.MarshalingP rt f st v1 want).decoded =
        (st.GetP (artifactName f)).bind
          (fun g => s.decoderOf f (rt.Elem (rt.TypeOf want)) (s.prepare g)) ∧
      (s.MarshalingP rt f st v1 want).decoded = (s.MarshalingP rt f st v2 want).decoded ∧
      (s.MarshalingP rt f st v1 want).objectMismatch =
        (s.MarshalingP rt f st v2 want).objectMismatch) := by
  constructor
  · rw [decoded_eq rt s f st v1 want b1 h1]
    rw [store_eq rt s f st v1 want b1 h1]
    cases (s.recorded f st (s.prepare b1)).GetP (artifactName f) <;> simp [hptr]
  · intro hu
    rw [decoded_eq rt s f st v1 want b1 h1, decoded_eq rt s f st v2 want b2 h2,
      objectMismatch_eq rt s f st v1 want b1 h1, objectMismatch_eq rt s f st v2 want b2 h2]
    simp only [recorded_no_update s f st _ hu]
    refine ⟨?_, trivial, trivial⟩
    cases st.GetP (artifactName f) <;> simp [hptr]

/-- Witness of C3: two different values against one golden file; both calls
decode the golden file, and both report a mismatch with the expected value. -/
theorem decoded_from_reference_witness :
    ((Demo.assert false true).MarshalingP Demo.rt .json [("goldsert_json", [67, 10])]
      (Demo.Val.ptr [65]) (.ptr [65])).decoded = some (Demo.Val.ptr [67]) ∧
    ((Demo.assert false true).MarshalingP Demo.rt .json [("goldsert_json", [67, 10])]
      (Demo.Val.ptr [65]) (.ptr [65])).decoded =
    ((Demo.assert false true).MarshalingP Demo.rt .json [("goldsert_json", [67, 10])]
      (Demo.Val.ptr [66]) (.ptr [65])).decoded :=
  have h := (decoded_from_reference Demo.rt (Demo.assert false true) .json
    [("goldsert_json", [67, 10])] (Demo.Val.ptr [65]) (Demo.Val.ptr [66]) (.ptr [65])
    [65, 10] [66, 10] (by decide) (by decide) (by decide)).2 (by decide)
  ⟨h.1.trans (by decide), h.2.1⟩

/-- C4, as stated, fails for XML: the bytes `<a/>` and `<a/>` followed by a
line break read as the same document, equal to itself, yet the comparison of
the serialized forms is the equality of the two strings and rejects them; the
helper reports the mismatch although the decoded instance equals the expected
value. -/
theorem serialized_tree_equality_counterexample :
    treeOf Demo.rt Demo.tree .xml [60, 97, 47, 62] =
      treeOf Demo.rt Demo.tree .xml [60, 97, 47, 62, 10] ∧
    treeOf Demo.rt Demo.tree .xml [60, 97, 47, 62] = some [60, 97, 47, 62] ∧
    Demo.rt.TreesAreEqual [60, 97, 47, 62] [60, 97, 47, 62] = true ∧
    serializedEq Demo.rt .xml [60, 97, 47, 62] [60, 97, 47, 62, 10] = false ∧
    ((Demo.assert false true).MarshalingP Demo.rt .xml [("goldsert_xml", [60, 97, 47, 62])]
      (Demo.Val.ptr [60, 97, 47, 62]) (.ptr [60, 97, 47, 62])).failures =
      [Failure.serializedMismatch .xml] := by
  decide

/-- C4, amended: once the value has encoded and a reference is read, each
helper calls the comparison of its format on the prepared reference and the
prepared encoding.  `JSONMarshalingP` and `YAMLMarshalingP` report no mismatch
of the serialized forms exactly when both parse and the parsed documents are
equal, whatever the bytes; `XMLMarshalingP` reports none exactly when the two
byte sequences are equal. -/
theorem serialized_tree_equality [DecidableEq Ty] (rt : Runtime V Ty Tree)
    (xmlTree : Bytes → Option Tree) (s : Assert V Ty) (f : Format) (st : Store)
    (v want : V) (b g : Bytes)
    (henc : s.encoderOf f v = some b)
    (hgold : (s.recorded f st (s.prepare b)).GetP (artifactName f) = some g) :
    Call.SerializedEq f (s.prepare g) (s.prepare b) ∈ (s.MarshalingP rt f st v want).calls ∧
    (f ≠ Format.xml →
      ((s.MarshalingP rt f st v want).serializedMismatch f = false ↔
        ∃ e a, treeOf rt xmlTree f (s.prepare g) = some e ∧
          treeOf rt xmlTree f (s.prepare b) = some a ∧ rt.TreesAreEqual e a = true)) ∧
    (f = Format.xml →
      ((s.MarshalingP rt f st v want).serializedMismatch f = false ↔
        s.prepare g = s.prepare b)) := by
  refine ⟨serializedEq_called rt s f st v want b g henc hgold, ?_, ?_⟩
  · intro hf
    rw [serializedMismatch_eq rt s f st v want b g henc hgold]
    cases f with
    | json =>
      simp only [serializedEq, JSONEq, treeOf]
      cases rt.jsonUnmarshal (s.prepare g) with
      | none => simp
      | some e => cases rt.jsonUnmarshal (s.prepare b) <;> simp
    | yaml =>
      simp only [serializedEq, YAMLEq, treeOf]
      cases rt.yamlUnmarshal (s.prepare g) with
      | none => simp
      | some e => cases rt.yamlUnmarshal (s.prepare b) <;> simp
    | xml => exact absurd rfl hf
  · intro hf
    subst hf
    rw [serializedMismatch_eq rt s Format.xml st v want b g henc hgold]
    simp [serializedEq, StringEqual]

/-- Witness of C4, amended: a JSON object encoded with indentation against a
golden file holding the same object on one line: the bytes differ and
`JSONMarshalingP` reports no mismatch of the serialized forms. -/
theorem serialized_tree_equality_witness :
    ([123, 34, 97, 34, 58, 49, 125, 10] : Bytes) ≠
      [123, 10, 32, 32, 34, 97, 34, 58, 32, 49, 10, 125, 10] ∧
    ((Demo.assert false true).MarshalingP Demo.rt .json
      [("goldsert_json", [123, 34, 97, 34, 58, 49, 125, 10])]
      (Demo.Val.ptr [123, 10, 32, 32, 34, 97, 34, 58, 32, 49, 10, 125])
      (.ptr [123, 34, 97, 34, 58, 49, 125])).serializedMismatch .json = false :=
  ⟨by decide,
    ((serialized_tree_equality Demo.rt Demo.tree (Demo.assert false true) .json
      [("goldsert_json", [123, 34, 97, 34, 58, 49, 125, 10])]
      (Demo.Val.ptr [123, 10, 32, 32, 34, 97, 34, 58, 32, 49, 10, 125])
      (.ptr [123, 34, 97, 34, 58, 49, 125])
      [123, 10, 32, 32, 34, 97, 34, 58, 32, 49, 10, 125, 10]
      [123, 34, 97, 34, 58, 49, 125, 10] (by decide) (by decide)).2.1 (by decide)).2
      ⟨[123, 34, 97, 34, 58, 49, 125], [123, 34, 97, 34, 58, 49, 125],
        by decide, by decide, by decide⟩⟩

/-- C1, as stated, fails: with update mode inactive the outcome depends on
the golden file.  Here `decode(encode(v))` equals the expected value, yet the
call fails, because the golden file holds another document. -/
theorem round_trip_iff_counterexample :
    Demo.rt.KindOf (Demo.Val.ptr [65]) = Kind.Ptr ∧
    (Demo.assert false true).roundTrips Demo.rt .json (Demo.Val.ptr [65]) (.ptr [65]) = true ∧
    ((Demo.assert false true).MarshalingP Demo.rt .json [("goldsert_json", [66, 10])]
      (Demo.Val.ptr [65]) (.ptr [65])).passed = false ∧
    ((Demo.assert false true).MarshalingP Demo.rt .json [("goldsert_json", [66, 10])]
      (Demo.Val.ptr [65]) (.ptr [65])).failures =
      [Failure.serializedMismatch .json, Failure.objectMismatch] := by
  decide

/-- C1, amended: for each format, every value `v`, every pointer `want`, every
store and either update setting, `MarshalingP(v, want)` succeeds exactly when
`v` encodes without error, a reference is read (the artifact just written in
update mode, the stored one otherwise), the prepared reference and the
prepared encoding pass the comparison of the serialized forms, and the
prepared reference decodes without error to an instance structurally equal to
`want`.  In update mode the reference is the prepared encoding `m`, so the call
succeeds exactly when `m` passes the comparison against itself and decodes to
an instance equal to `want`; where moreover preparing changes nothing and the
comparison accepts a text against itself, that is exactly when
`decode(encode(v))` is structurally equal to `want`. -/
theorem round_trip_iff (rt : Runtime V Ty Tree) (s : Assert V Ty) (f : Format)
    (st : Store) (v want : V) (hptr : rt.KindOf want = Kind.Ptr) :
    ((s.MarshalingP rt f st v want).passed = true ↔
      ∃ b g got, s.encoderOf f v = some b ∧
        (s.recorded f st (s.prepare b)).GetP (artifactName f) = some g ∧
        serializedEq rt f (s.prepare g) (s.prepare b) = true ∧
        s.decoderOf f (rt.Elem (rt.TypeOf want)) (s.prepare g) = some got ∧
        rt.ObjectsAreEqual want got = true) ∧
    (s.Golden.Update = true →
      ((s.MarshalingP rt f st v want).passed = true ↔
        ∃ b got, s.encoderOf f v = some b ∧
          serializedEq rt f (s.prepare b) (s.prepare b) = true ∧
          s.decoderOf f (rt.Elem (rt.TypeOf want)) (s.prepare b) = some got ∧
          rt.ObjectsAreEqual want got = true)) ∧
    (s.Golden.Update = true →
      (∀ b, s.encoderOf f v = some b → s.prepare b = b ∧ serializedEq rt f b b = true) →
      ((s.MarshalingP rt f st v want).passed = true ↔ s.roundTrips rt f v want = true)) := by
  have hupd : s.Golden.Update = true →
      ((s.MarshalingP rt f st v want).passed = true ↔
        ∃ b got, s.encoderOf f v = some b ∧
          serializedEq rt f (s.prepare b) (s.prepare b) = true ∧
          s.decoderOf f (rt.Elem (rt.TypeOf want)) (s.prepare b) = some got ∧
          rt.ObjectsAreEqual want got = true) := by
    intro hu
    rw [passed_iff rt s f st v want hptr]
    constructor
    · rintro ⟨b, g, got, hb, hg, hs, hd, ho⟩
      rw [recorded_GetP_update s f st _ hu] at hg
      cases hg
      rw [prepare_idem] at hs hd
      exact ⟨b, got, hb, hs, hd, ho⟩
    · rintro ⟨b, got, hb, hs, hd, ho⟩
      refine ⟨b, s.prepare b, got, hb, recorded_GetP_update s f st _ hu, ?_, ?_, ho⟩
      · rw [prepare_idem]; exact hs
      · rw [prepare_idem]; exact hd
  refine ⟨passed_iff rt s f st v want hptr, hupd, ?_⟩
  intro hu hself
  rw [hupd hu]
  unfold Assert.roundTrips
  cases henc : s.encoderOf f v with
  | none => simp
  | some b =>
    obtain ⟨hp, hs⟩ := hself b henc
    cases hd : s.decoderOf f (rt.Elem (rt.TypeOf want)) b with
    | none => simp [hp, hs, hd]
    | some got => simp [hp, hs, hd]

/-- Witness of C1, amended: in update mode, on an empty store, a pointer to a
text passes against itself. -/
theorem round_trip_iff_witness :
    Demo.rt.KindOf (Demo.Val.ptr [65]) = Kind.Ptr ∧
    ((Demo.assert true true).MarshalingP Demo.rt .json [] (Demo.Val.ptr [65])
      (.ptr [65])).passed = true :=
  ⟨by decide,
    ((round_trip_iff Demo.rt (Demo.assert true true) .json [] (Demo.Val.ptr [65])
      (.ptr [65]) (by decide)).2.1 (by decide)).2
      ⟨[65, 10], .ptr [65], by decide, by decide, by decide, by decide⟩⟩

/-- C12, as stated, fails for YAML: the document `.nan` has Unix line endings,
and its golden file with Windows line endings normalizes to the same bytes, yet
`YAMLEq` rejects the pair, a NaN being unequal to itself, and
`YAMLMarshalingP` reports a mismatch of the serialized forms. -/
theorem crlf_reference_counterexample :
    (13 : Byte) ∉ ([46, 110, 97, 110, 10] : Bytes) ∧
    toCRLF [46, 110, 97, 110, 10] = [46, 110, 97, 110, 13, 10] ∧
    normalizeLineBreaks [46, 110, 97, 110, 13, 10] = normalizeLineBreaks [46, 110, 97, 110, 10] ∧
    (Demo.assert false true).NormalizeLineBreaks = true ∧
    (Demo.assert false true).encoderOf .yaml (Demo.Val.ptr [46, 110, 97, 110]) =
      some [46, 110, 97, 110, 10] ∧
    serializedEq Demo.rt .yaml ((Demo.assert false true).prepare [46, 110, 97, 110, 13, 10])
      ((Demo.assert false true).prepare [46, 110, 97, 110, 10]) = false ∧
    ((Demo.assert false true).MarshalingP Demo.rt .yaml
      [("goldsert_yaml", [46, 110, 97, 110, 13, 10])]
      (Demo.Val.ptr [46, 110, 97, 110]) (.ptr [46, 110, 97, 110])).serializedMismatch .yaml
      = true := by
  decide

/-- C12, amended: for every encoded text `m` with Unix line endings (no CR
byte) and the reference obtained from it by writing every LF as CR LF, both
normalize to `m`; so with `NormalizeLineBreaks` set a helper that reads this
reference calls the comparison of the serialized forms on the pair (m, m).
`XMLMarshalingP` then reports no mismatch of the serialized forms;
`JSONMarshalingP` and `YAMLMarshalingP` report one exactly when their
comparison rejects `m` against itself. -/
theorem crlf_reference_compares_equal [DecidableEq Ty] (rt : Runtime V Ty Tree)
    (s : Assert V Ty) (f : Format) (m : Bytes)
    (hcr : (13 : Byte) ∉ m) (hn : s.NormalizeLineBreaks = true) :
    normalizeLineBreaks (toCRLF m) = normalizeLineBreaks m ∧
    ∀ (st : Store) (v want : V), s.Golden.Update = false → s.encoderOf f v = some m →
      st.GetP (artifactName f) = some (toCRLF m) →
      Call.SerializedEq f m m ∈ (s.MarshalingP rt f st v want).calls ∧
      (s.MarshalingP rt f st v want).serializedMismatch f = !serializedEq rt f m m ∧
      (f = Format.xml → (s.MarshalingP rt f st v want).serializedMismatch f = false) := by
  have hm : normalizeLineBreaks m = m := by
    rw [normalizeLineBreaks_eq_scan]
    exact scan_of_no_cr m hcr
  have hg : normalizeLineBreaks (toCRLF m) = m := by
    rw [normalizeLineBreaks_eq_scan]
    exact scan_toCRLF m hcr
  have hpm : s.prepare m = m := by simp [Assert.prepare, hn, hm]
  have hpg : s.prepare (toCRLF m) = m := by simp [Assert.prepare, hn, hg]
  refine ⟨hg.trans hm.symm, ?_⟩
  intro st v want hu henc hgold
  have hgold2 : (s.recorded f st (s.prepare m)).GetP (artifactName f) = some (toCRLF m) := by
    rw [recorded_no_update s f st _ hu]
    exact hgold
  have hcall := serializedEq_called rt s f st v want m (toCRLF m) henc hgold2
  have hverdict := serializedMismatch_eq rt s f st v want m (toCRLF m) henc hgold2
  rw [hpg, hpm] at hcall hverdict
  refine ⟨hcall, hverdict, ?_⟩
  intro hf
  rw [hverdict, hf]
  simp [serializedEq, StringEqual]

/-- Witness of C12, amended: an XML text of two lines, its golden file saved
with Windows line endings: the comparison is called on the text against itself
and no mismatch of the serialized forms is reported. -/
theorem crlf_reference_compares_equal_witness :
    (13 : Byte) ∉ ([60, 97, 62, 10, 60, 47, 97, 62, 10] : Bytes) ∧
    toCRLF [60, 97, 62, 10, 60, 47, 97, 62, 10] =
      [60, 97, 62, 13, 10, 60, 47, 97, 62, 13, 10] ∧
    normalizeLineBreaks (toCRLF [60, 97, 62, 10, 60, 47, 97, 62, 10]) =
      normalizeLineBreaks [60, 97, 62, 10, 60, 47, 97, 62, 10] ∧
    Call.SerializedEq .xml [60, 97, 62, 10, 60, 47, 97, 62, 10]
      [60, 97, 62, 10, 60, 47, 97, 62, 10] ∈
      ((Demo.assert false true).MarshalingP Demo.rt .xml
        [("goldsert_xml", [60, 97, 62, 13, 10, 60, 47, 97, 62, 13, 10])]
        (Demo.Val.ptr [60, 97, 62, 10, 60, 47, 97, 62])
        (.ptr [60, 97, 62, 60, 47, 97, 62])).calls ∧
    ((Demo.assert false true).MarshalingP Demo.rt .xml
      [("goldsert_xml", [60, 97, 62, 13, 10, 60, 47, 97, 62, 13, 10])]
      (Demo.Val.ptr [60, 97, 62, 10, 60, 47, 97, 62]) (.ptr [60, 97, 62, 60, 47, 97, 62])
      ).serializedMismatch .xml = false :=
  have h := crlf_reference_compares_equal Demo.rt (Demo.assert false true) .xml
    [60, 97, 62, 10, 60, 47, 97, 62, 10] (by decide) (by decide)
  have h2 := h.2 [("goldsert_xml", [60, 97, 62, 13, 10, 60, 47, 97, 62, 13, 10])]
    (Demo.Val.ptr [60, 97, 62, 10, 60, 47, 97, 62]) (.ptr [60, 97, 62, 60, 47, 97, 62])
    (by decide) (by decide) (by decide)
  ⟨by decide, by decide, h.1, h2.1, h2.2.2 rfl⟩

/-- C13: for each format, every value, expected value and store: with update
mode inactive the call leaves the store as it was, whatever its outcome; a
`SetP` call is made only in update mode, only under the name of the format and
only with the prepared encoding, so the store after the call is the store
before it or that store with this one artifact written; artifacts under other
names are never changed. -/
theorem store_frame (rt : Runtime V Ty Tree) (s : Assert V Ty) (f : Format)
    (st : Store) (v want : V) :
    (s.Golden.Update = false → (s.MarshalingP rt f st v want).store = st) ∧
    (∀ name data, Call.SetP name data ∈ (s.MarshalingP rt f st v want).calls →
      s.Golden.Update = true ∧ name = artifactName f ∧
        ∃ b, s.encoderOf f v = some b ∧ data = s.prepare b) ∧
    ((s.MarshalingP rt f st v want).store = st ∨
      (s.Golden.Update = true ∧ ∃ b, s.encoderOf f v = some b ∧
        (s.MarshalingP rt f st v want).store = st.SetP (artifactName f) (s.prepare b))) ∧
    (∀ name, name ≠ artifactName f →
      (s.MarshalingP rt f st v want).store.GetP name = st.GetP name) := by
  cases henc : s.encoderOf f v with
  | none =>
    have ho := MarshalingP_eq rt s f st v want
    rw [henc] at ho
    rw [ho]
    simp
  | some b =>
    have hstore := store_eq rt s f st v want b henc
    refine ⟨?_, ?_, ?_, ?_⟩
    · intro hu
      rw [hstore, recorded_no_update s f st _ hu]
    · intro name data hmem
      rw [MarshalingP_eq, henc] at hmem
      cases hu : s.Golden.Update with
      | false =>
        exfalso
        revert hmem
        simp only [hu]
        split
        · simp
        · split
          · simp
          · split <;> simp
      | true =>
        have hname : name = artifactName f ∧ data = s.prepare b := by
          revert hmem
          simp only [hu]
          split
          · simp
          · split
            · simp
            · split <;> simp
        exact ⟨rfl, hname.1, b, rfl, hname.2⟩
    · rw [hstore]
      cases hu : s.Golden.Update with
      | false => exact Or.inl (recorded_no_update s f st _ hu)
      | true => exact Or.inr ⟨rfl, b, rfl, by simp [Assert.recorded, hu]⟩
    · intro name hne
      rw [hstore]
      cases hu : s.Golden.Update with
      | false => rw [recorded_no_update s f st _ hu]
      | true =>
        simp only [Assert.recorded, hu, if_true]
        exact Store.GetP_SetP_of_ne st (artifactName f) name (s.prepare b) hne

/-- Witness of C13: update mode inactive, a golden file that does not match:
the call fails and the store is as before. -/
theorem store_frame_witness :
    (Demo.assert false true).Golden.Update = false ∧
    ((Demo.assert false true).MarshalingP Demo.rt .yaml
      [("goldsert_yaml", [66, 10]), ("goldsert_json", [67, 10])]
      (Demo.Val.ptr [65]) (.ptr [65])).store =
      [("goldsert_yaml", [66, 10]), ("goldsert_json", [67, 10])] :=
  ⟨by decide,
    (store_frame Demo.rt (Demo.assert false true) .yaml
      [("goldsert_yaml", [66, 10]), ("goldsert_json", [67, 10])]
      (Demo.Val.ptr [65]) (.ptr [65])).1 (by decide)⟩

end Verifier

/-- C10: for every byte sequence, `normalizeLineBreaks` (CRLF to LF, then CR
to LF) equals the single left-to-right scan that emits one LF for each CRLF
pair and for each CR not followed by LF and copies every other byte; hence a
sequence without a CR byte is returned unchanged. -/
theorem normalizeLineBreaks_single_scan (b : Bytes) :
    normalizeLineBreaks b = scanLineBreaks b ∧
    ((13 : Byte) ∉ b → normalizeLineBreaks b = b) := by
  refine ⟨normalizeLineBreaks_eq_scan b, fun h => ?_⟩
  rw [normalizeLineBreaks_eq_scan b]
  exact scan_of_no_cr b h

/-- Witness of C10: a text with LF line breaks only is returned unchanged. -/
theorem normalizeLineBreaks_single_scan_witness :
    (13 : Byte) ∉ ([65, 10, 66, 10] : Bytes) ∧
    normalizeLineBreaks [65, 10, 66, 10] = [65, 10, 66, 10] :=
  ⟨by decide, (normalizeLineBreaks_single_scan [65, 10, 66, 10]).2 (by decide)⟩


/-- C11: for every byte sequence, normalizing twice gives what normalizing
once gives. -/
theorem normalizeLineBreaks_idempotent (b : Bytes) :
    normalizeLineBreaks (normalizeLineBreaks b) = normalizeLineBreaks b := by
  rw [normalizeLineBreaks_eq_scan (normalizeLineBreaks b), normalizeLineBreaks_eq_scan b]
  exact scan_of_no_cr (scanLineBreaks b) (scan_no_cr b)

end Goldsert
